import Mathlib

/-!
Shallow embedding of the hybrid movie recommendation engine of the MRS_VAM
repository (src/src/recommender.py and src/src/nlp_recommender.py), together
with proofs settling the frozen claims about its specification.

Modelling conventions:
* pandas DataFrames of rating records become `List RatingRecord`;
* the pivoted user-movie matrix becomes index lists (`users`, `movies`,
  sorted ascending as pandas `pivot` sorts its index and columns) plus an
  entry function; `pivot` raising `ValueError` on duplicate
  `(user_id, movie_id)` pairs is modelled by `prepare_data` returning `none`
  (the `except` clause of `_prepare_data` nulls the matrices);
* floating point numbers are modelled as real numbers; the pandas idiom
  `((M - M.mean()) / M.std()).fillna(0)` is modelled with Lean's
  division-by-zero-equals-zero convention, which yields the same values on
  every reachable input (a zero standard deviation forces a zero numerator,
  so the float result is NaN, which `fillna` maps to 0);
* Python dicts keyed by movie id become association lists in insertion
  order; `np.argsort` becomes a stable ascending index sort (numpy leaves
  tie order unspecified; for the array sizes this code produces numpy uses
  insertion sort, which is stable);
* Python's stable `sorted(..., reverse=True)` becomes `sortDesc`.
-/

set_option maxHeartbeats 2000000

namespace MRS

/-! ### Generic list machinery: stable sorts, argsort, dict operations -/

/-- Boolean lexicographic strictly-less on character lists (code-point order,
the order pandas uses to sort a string index). -/
def lexLtB : List Char → List Char → Bool
  | [], [] => false
  | [], _ :: _ => true
  | _ :: _, [] => false
  | a :: as, b :: bs => if a < b then true else if b < a then false else lexLtB as bs

/-- Boolean `≤` on strings, derived from `lexLtB`. -/
def strLeB (a b : String) : Bool := !(lexLtB b.data a.data)

/-- Insert into a list sorted ascending by the boolean `le`. -/
def insertLe {α : Type} (le : α → α → Bool) (a : α) : List α → List α
  | [] => [a]
  | b :: bs => if le a b then a :: b :: bs else b :: insertLe le a bs

/-- Insertion sort, ascending by the boolean `le`. -/
def sortLe {α : Type} (le : α → α → Bool) : List α → List α
  | [] => []
  | a :: as => insertLe le a (sortLe le as)

/-- Sorted deduplicated list: the index (or columns) of a pandas pivot. -/
def sortedUniqStr (l : List String) : List String := sortLe strLeB l.dedup

/-- Sorted deduplicated list of naturals (pivot columns for integer ids). -/
def sortedUniqNat (l : List ℕ) : List ℕ := sortLe (fun a b => a ≤ b) l.dedup

/-- Insert an index into an index list sorted ascending by the scores `xs`;
ties keep the earlier-processed index first, making `argsort` stable. -/
noncomputable def insertIdx' (xs : List ℝ) (i : ℕ) : List ℕ → List ℕ
  | [] => [i]
  | j :: js => if xs.getD i 0 ≤ xs.getD j 0 then i :: j :: js else j :: insertIdx' xs i js

/-- Stable ascending argsort of the index list `l` by the scores `xs`. -/
noncomputable def argsortAux (xs : List ℝ) : List ℕ → List ℕ
  | [] => []
  | i :: is => insertIdx' xs i (argsortAux xs is)

/-- Model of `np.argsort xs`: the indices `0, …, xs.length - 1` sorted
ascending by their score, stably. -/
noncomputable def argsort (xs : List ℝ) : List ℕ := argsortAux xs (List.range xs.length)

/-- Insert a `(movie, score)` pair into a list sorted descending by score;
ties keep the inserted (originally earlier) pair first: this is Python's
stable `sorted(d.items(), key=lambda x: x[1], reverse=True)`. -/
noncomputable def insertDesc (p : ℕ × ℝ) : List (ℕ × ℝ) → List (ℕ × ℝ)
  | [] => [p]
  | q :: qs => if q.2 ≤ p.2 then p :: q :: qs else q :: insertDesc p qs

/-- Stable sort of `(movie, score)` pairs, descending by score. -/
noncomputable def sortDesc : List (ℕ × ℝ) → List (ℕ × ℝ)
  | [] => []
  | p :: ps => insertDesc p (sortDesc ps)

/-- Keys (movie ids) of an association list. -/
def keysOf (recs : List (ℕ × ℝ)) : List ℕ := recs.map Prod.fst

/-- Lookup of a movie's score: Python `d[m]` / `m in d`. -/
noncomputable def scoreOf : List (ℕ × ℝ) → ℕ → Option ℝ
  | [], _ => none
  | q :: qs, m => if q.1 = m then some q.2 else scoreOf qs m

/-- Python `d[m] = d[m] + v if m in d else v` on an insertion-ordered dict. -/
noncomputable def addScore (recs : List (ℕ × ℝ)) (m : ℕ) (v : ℝ) : List (ℕ × ℝ) :=
  if m ∈ keysOf recs then recs.map (fun q => if q.1 = m then (q.1, q.2 + v) else q)
  else recs ++ [(m, v)]

/-- Python `d[m] = v` on an insertion-ordered dict. -/
noncomputable def setScore (recs : List (ℕ × ℝ)) (m : ℕ) (v : ℝ) : List (ℕ × ℝ) :=
  if m ∈ keysOf recs then recs.map (fun q => if q.1 = m then (q.1, v) else q)
  else recs ++ [(m, v)]

/-- Python `d[m] = max(d[m], v) if m in d else v` on an insertion-ordered dict. -/
noncomputable def maxScore (recs : List (ℕ × ℝ)) (m : ℕ) (v : ℝ) : List (ℕ × ℝ) :=
  if m ∈ keysOf recs then recs.map (fun q => if q.1 = m then (q.1, max q.2 v) else q)
  else recs ++ [(m, v)]

/-! ### Data model -/

/-- One rating record of the snapshot the engine is built from
(`user_id TEXT`, `movie_id INTEGER`, `rating INTEGER CHECK (1..5)`;
the engine itself never checks the range, so the rating is any rational). -/
structure RatingRecord where
  user_id : String
  movie_id : ℕ
  rating : ℚ
deriving DecidableEq

/-- All records of one user, in snapshot order:
`ratings_df[ratings_df['user_id'] == user_id]`. -/
def userRecords (ratings : List RatingRecord) (uid : String) : List RatingRecord :=
  ratings.filter (fun r => decide (r.user_id = uid))

/-- Movie ids the user has rated, with multiplicity, in snapshot order. -/
def ratedMovies (ratings : List RatingRecord) (uid : String) : List ℕ :=
  (userRecords ratings uid).map (·.movie_id)

/-- The `(user_id, movie_id)` key of each record, used by `pivot` to detect
duplicate entries. -/
def pairKeys (ratings : List RatingRecord) : List (String × ℕ) :=
  ratings.map (fun r => (r.user_id, r.movie_id))

/-- The successfully pivoted state: the snapshot plus the sorted row index
(users) and column index (movies) of the user-movie matrix. -/
structure Prepared where
  ratings : List RatingRecord
  users : List String
  movies : List ℕ
deriving DecidableEq

/-- Model of `MovieRecommender._prepare_data`: `none` when the snapshot is
empty (early return with matrices still `None`) or when `pivot` raises on a
duplicate `(user_id, movie_id)` pair (the `except` clause nulls all
matrices); otherwise the pivoted state. -/
def prepare_data (ratings : List RatingRecord) : Option Prepared :=
  if ratings = [] then none
  else if ¬ (pairKeys ratings).Nodup then none
  else
    let users := sortedUniqStr (ratings.map (·.user_id))
    let movies := sortedUniqNat (ratings.map (·.movie_id))
    if users = [] ∨ movies = [] then none
    else some ⟨ratings, users, movies⟩

/-- Entry `(i, j)` of the pivoted user-movie matrix: the rating of user
`users[i]` for movie `movies[j]`, with missing cells filled by 0
(`pivot(...).fillna(0)`). -/
def rawEntry (st : Prepared) (i j : ℕ) : ℚ :=
  match st.ratings.find? (fun r =>
      decide (r.user_id = st.users.getD i "" ∧ r.movie_id = st.movies.getD j 0)) with
  | some r => r.rating
  | none => 0

/-- Column mean of movie column `j` over all users (`matrix.mean()`). -/
def colMean (st : Prepared) (j : ℕ) : ℚ :=
  (∑ i ∈ Finset.range st.users.length, rawEntry st i j) / st.users.length

/-- Column sample variance of movie column `j` (pandas `std` squares this:
`ddof = 1`, so the divisor is `len - 1`; division by zero gives 0,
matching the NaN-then-`fillna(0)` float outcome). -/
def colVar (st : Prepared) (j : ℕ) : ℚ :=
  (∑ i ∈ Finset.range st.users.length, (rawEntry st i j - colMean st j) ^ 2) /
    (st.users.length - 1 : ℕ)

/-- Column standard deviation of movie column `j` (`matrix.std()`). -/
noncomputable def colStd (st : Prepared) (j : ℕ) : ℝ := Real.sqrt (colVar st j)

/-- Entry `(i, j)` of the z-score normalized matrix,
`((M - M.mean()) / M.std()).fillna(0)`: with a zero (or, for a single user,
NaN) standard deviation the numerator is zero as well, so the float result
is NaN and `fillna` makes the entry 0 — exactly Lean's `x / 0 = 0`. -/
noncomputable def normEntry (st : Prepared) (i j : ℕ) : ℝ :=
  ((rawEntry st i j - colMean st j : ℚ) : ℝ) / colStd st j

/-- Dot product of two length-`len` vectors given as functions. -/
noncomputable def dotR (v w : ℕ → ℝ) (len : ℕ) : ℝ :=
  ∑ k ∈ Finset.range len, v k * w k

/-- Cosine similarity of two vectors, as `sklearn.metrics.pairwise
.cosine_similarity` computes it; a zero vector forces a zero dot product,
so `x / 0 = 0` reproduces sklearn's zero-similarity convention for
zero-norm rows. -/
noncomputable def cosSim (v w : ℕ → ℝ) (len : ℕ) : ℝ :=
  dotR v w len / (Real.sqrt (dotR v v len) * Real.sqrt (dotR w w len))

/-- Row `i` of the normalized matrix (one user across all movies). -/
noncomputable def userRow (st : Prepared) (i : ℕ) : ℕ → ℝ := fun j => normEntry st i j

/-- Column `j` of the normalized matrix (one movie across all users). -/
noncomputable def itemCol (st : Prepared) (j : ℕ) : ℕ → ℝ := fun i => normEntry st i j

/-- Entry `(i, i')` of `cosine_similarity(normalized_matrix)`. -/
noncomputable def userSim (st : Prepared) (i i' : ℕ) : ℝ :=
  cosSim (userRow st i) (userRow st i') st.movies.length

/-- Entry `(j, j')` of `cosine_similarity(normalized_matrix.T)`. -/
noncomputable def itemSim (st : Prepared) (j j' : ℕ) : ℝ :=
  cosSim (itemCol st j) (itemCol st j') st.users.length

/-! ### Content model (`nlp_recommender.py`) -/

/-- State of `NLPRecommender`: `none` before a successful `fit`, otherwise
the fitted corpus of `(movie id, description)` pairs in input order. -/
structure NLPState where
  corpus : Option (List (ℕ × String))
deriving DecidableEq

/-- A fresh `NLPRecommender()` with no TF-IDF matrix. -/
def nlpInit : NLPState := ⟨none⟩

/-- Model of `NLPRecommender.fit`: keep only movies with a non-empty
overview; when none remain, return early leaving the previous state. -/
def nlp_fit (old : NLPState) (movieData : List (ℕ × Option String)) : NLPState :=
  let valid := movieData.filterMap (fun m =>
    match m.2 with
    | some d => if d = "" then none else some (m.1, d)
    | none => none)
  if valid = [] then old else ⟨some valid⟩

/-- Helper splitting a character stream into space-separated words. -/
def wordsAux : List Char → List Char → List String
  | [], cur => if cur = [] then [] else [String.mk cur.reverse]
  | c :: cs, cur =>
    if c = ' ' then
      (if cur = [] then wordsAux cs [] else String.mk cur.reverse :: wordsAux cs [])
    else wordsAux cs (c :: cur)

/-- Words of a description, split on spaces. -/
def wordsOf (s : String) : List String := wordsAux s.data []

/-- Dot product of the term-count vectors of two descriptions. -/
def dotW (a b : String) : ℕ :=
  ((wordsOf a).dedup.map (fun w => (wordsOf a).count w * (wordsOf b).count w)).sum

/-- Modelled from the spec: the TF-IDF vector space built by sklearn's
`TfidfVectorizer` (an external library component whose exact weighting the
spec leaves as an implementation detail) is modelled as cosine similarity
over term-count vectors, which keeps the guarantees the spec demands of it:
identical descriptions have similarity 1, similarity is symmetric, and
unrelated descriptions have similarity 0. -/
noncomputable def docSim (a b : String) : ℝ :=
  (dotW a b : ℝ) / (Real.sqrt (dotW a a) * Real.sqrt (dotW b b))

/-- Model of `NLPRecommender.get_similar_movies`: empty when unfitted or
when the movie is not in the corpus; otherwise the ids at the indices of
`similarity_row.argsort()[::-1][1:n+1]`. -/
noncomputable def get_similar_movies (st : NLPState) (movieId : ℕ) (n : ℕ) : List ℕ :=
  match st.corpus with
  | none => []
  | some corpus =>
    let ids := corpus.map Prod.fst
    if movieId ∈ ids then
      let idx := ids.indexOf movieId
      let myDesc := (corpus.getD idx (0, "")).2
      let row := corpus.map (fun m => docSim myDesc m.2)
      let simIdx := ((argsort row).reverse.drop 1).take n
      simIdx.map (fun i => ids.getD i 0)
    else []

/-! ### The three strategies -/

/-- Model of `MovieRecommender._get_user_based_recommendations`; the
`except` path (a `get_loc` failure on an unknown user) returns `[]`. -/
noncomputable def get_user_based_recommendations (ratings : List RatingRecord)
    (st : Prepared) (uid : String) (n : ℕ) : List (ℕ × ℝ) :=
  if uid ∈ st.users then
    let userIdx := st.users.indexOf uid
    let sims := (List.range st.users.length).map (fun i => userSim st userIdx i)
    let similarUsers := ((argsort sims).reverse.drop 1).take 5
    let rated := ratedMovies ratings uid
    let recs := similarUsers.foldl (fun recs sIdx =>
      (userRecords ratings (st.users.getD sIdx "")).foldl (fun recs r =>
        if r.movie_id ∈ rated then recs
        else addScore recs r.movie_id ((r.rating : ℝ) * sims.getD sIdx 0)) recs) []
    (sortDesc recs).take n
  else []

/-- Model of `MovieRecommender._get_item_based_recommendations`. -/
noncomputable def get_item_based_recommendations (ratings : List RatingRecord)
    (st : Prepared) (uid : String) (n : ℕ) : List (ℕ × ℝ) :=
  let uRecs := userRecords ratings uid
  let ratedIds := uRecs.map (·.movie_id)
  let recs := uRecs.foldl (fun recs r =>
    let movieIdx := st.movies.indexOf r.movie_id
    let simRow := (List.range st.movies.length).map (fun j => itemSim st movieIdx j)
    let simItems := ((argsort simRow).reverse.drop 1).take 5
    simItems.foldl (fun recs sIdx =>
      if st.movies.getD sIdx 0 ∈ ratedIds then recs
      else addScore recs (st.movies.getD sIdx 0) ((r.rating : ℝ) * simRow.getD sIdx 0)) recs) []
  (sortDesc recs).take n

/-- Model of `MovieRecommender._get_content_based_recommendations`: from
each movie the user rated at least `MIN_RATING_THRESHOLD = 4`, take its
similar movies (with the default `n_recommendations = 5` of
`get_similar_movies`); a candidate's score is the maximum source rating.
Note: unlike the two collaborative strategies, no already-rated filter. -/
noncomputable def get_content_based_recommendations (nlp : NLPState)
    (uRecs : List RatingRecord) (n : ℕ) : List (ℕ × ℝ) :=
  let recs := (uRecs.filter (fun r => decide (4 ≤ r.rating))).foldl (fun recs r =>
    (get_similar_movies nlp r.movie_id 5).foldl (fun recs m =>
      maxScore recs m (r.rating : ℝ)) recs) []
  (sortDesc recs).take n

/-! ### Hybrid combination (`get_recommendations`) -/

/-- The three strategy weights combined exactly as in the source: the
user-based loop assigns `score * 0.4`, the item-based and content-based
loops add `score * 0.3` (or insert it when the movie is new). -/
noncomputable def combineRecs (u i c : List (ℕ × ℝ)) : List (ℕ × ℝ) :=
  let r1 := u.foldl (fun recs p => setScore recs p.1 (p.2 * 0.4)) []
  let r2 := i.foldl (fun recs p => addScore recs p.1 (p.2 * 0.3)) r1
  c.foldl (fun recs p => addScore recs p.1 (p.2 * 0.3)) r2

/-- The combined score dict of `get_recommendations` for an eligible user:
the weighted merge of the three strategy outputs. -/
noncomputable def combined_scores (ratings : List RatingRecord) (st : Prepared)
    (nlp : NLPState) (uid : String) (n : ℕ) : List (ℕ × ℝ) :=
  combineRecs (get_user_based_recommendations ratings st uid n)
    (get_item_based_recommendations ratings st uid n)
    (get_content_based_recommendations nlp (userRecords ratings uid) n)

/-- Status component of a recommendation result, one constructor per
message string of `get_recommendations`; `insufficientRatings` carries the
threshold surfaced in the message (`MIN_RATINGS_REQUIRED`). -/
inductive Status where
  | uninitialized
  | userNotFound
  | insufficientRatings (minRequired : ℕ)
  | noRecommendations
  | success
deriving DecidableEq

/-- The computation performed once a user passed the eligibility checks:
sort the combined dict descending by score (Python's stable `sorted`),
truncate to `n`, keep the movie ids. -/
noncomputable def computeRecs (ratings : List RatingRecord) (st : Prepared)
    (nlp : NLPState) (uid : String) (n : ℕ) : List ℕ × Status :=
  let final := sortDesc (combined_scores ratings st nlp uid n)
  let recs := (final.take n).map Prod.fst
  if recs = [] then ([], Status.noRecommendations) else (recs, Status.success)

/-- The engine state after `MovieRecommender.__init__`. -/
structure Recommender where
  ratings : List RatingRecord
  prep : Option Prepared
  nlp : NLPState

/-- `MovieRecommender(ratings_data)`: store the snapshot, run
`_prepare_data`, start with an unfitted `NLPRecommender`. -/
def mkRecommender (ratings : List RatingRecord) : Recommender :=
  ⟨ratings, prepare_data ratings, nlpInit⟩

/-- Model of `MovieRecommender.get_recommendations`: the initialization,
membership and minimum-ratings checks, the optional NLP refit (`if
movie_data:` — only a non-empty metadata list refits), then `computeRecs`.
Every operation on the eligible path is total, so the outer
`try`/`except` never fires. -/
noncomputable def get_recommendations (rc : Recommender) (uid : String) (n : ℕ)
    (md : List (ℕ × Option String)) : List ℕ × Status :=
  match rc.prep with
  | none => ([], Status.uninitialized)
  | some st =>
    if uid ∈ st.users then
      if (userRecords rc.ratings uid).length < 3 then
        ([], Status.insufficientRatings 3)
      else
        let nlp := if md = [] then rc.nlp else nlp_fit rc.nlp md
        computeRecs rc.ratings st nlp uid n
    else ([], Status.userNotFound)

/-! ### Lemmas about the stable sorts -/

theorem insertDesc_perm (p : ℕ × ℝ) (l : List (ℕ × ℝ)) : (insertDesc p l).Perm (p :: l) := by
  induction l with
  | nil => simp [insertDesc]
  | cons q qs ih =>
    by_cases h : q.2 ≤ p.2
    · simp [insertDesc, h]
    · simpa [insertDesc, h] using (ih.cons q).trans (List.Perm.swap p q qs)

theorem sortDesc_perm (l : List (ℕ × ℝ)) : (sortDesc l).Perm l := by
  induction l with
  | nil => simp [sortDesc]
  | cons p ps ih => exact (insertDesc_perm p (sortDesc ps)).trans (ih.cons p)

theorem insertDesc_pairwise (p : ℕ × ℝ) (l : List (ℕ × ℝ))
    (h : l.Pairwise (fun a b => b.2 ≤ a.2)) :
    (insertDesc p l).Pairwise (fun a b => b.2 ≤ a.2) := by
  induction l with
  | nil => simp [insertDesc]
  | cons q qs ih =>
    rcases List.pairwise_cons.mp h with ⟨hq, hqs⟩
    by_cases hle : q.2 ≤ p.2
    · simp only [insertDesc, if_pos hle]
      refine List.pairwise_cons.mpr ⟨?_, h⟩
      intro b hb
      rcases List.mem_cons.mp hb with rfl | hb
      · exact hle
      · exact le_trans (hq b hb) hle
    · simp only [insertDesc, if_neg hle]
      refine List.pairwise_cons.mpr ⟨?_, ih hqs⟩
      intro b hb
      rcases List.mem_cons.mp ((insertDesc_perm p qs).mem_iff.mp hb) with rfl | hb
      · exact le_of_not_le hle
      · exact hq b hb

theorem sortDesc_pairwise (l : List (ℕ × ℝ)) :
    (sortDesc l).Pairwise (fun a b => b.2 ≤ a.2) := by
  induction l with
  | nil => simp [sortDesc]
  | cons p ps ih => exact insertDesc_pairwise p (sortDesc ps) ih

/-! ### Lemmas about the dict operations -/

theorem keysOf_map_fst (recs : List (ℕ × ℝ)) (f : ℕ × ℝ → ℕ × ℝ)
    (hf : ∀ q, (f q).1 = q.1) : keysOf (recs.map f) = keysOf recs := by
  induction recs with
  | nil => rfl
  | cons q qs ih => simp [keysOf, hf q] at ih ⊢; exact ih

theorem keysOf_addScore (recs : List (ℕ × ℝ)) (m : ℕ) (v : ℝ) :
    keysOf (addScore recs m v) =
      if m ∈ keysOf recs then keysOf recs else keysOf recs ++ [m] := by
  unfold addScore
  split_ifs with h
  · exact keysOf_map_fst recs _ (fun q => by by_cases hq : q.1 = m <;> simp [hq])
  · simp [keysOf]

theorem keysOf_setScore (recs : List (ℕ × ℝ)) (m : ℕ) (v : ℝ) :
    keysOf (setScore recs m v) =
      if m ∈ keysOf recs then keysOf recs else keysOf recs ++ [m] := by
  unfold setScore
  split_ifs with h
  · exact keysOf_map_fst recs _ (fun q => by by_cases hq : q.1 = m <;> simp [hq])
  · simp [keysOf]

theorem keysOf_maxScore (recs : List (ℕ × ℝ)) (m : ℕ) (v : ℝ) :
    keysOf (maxScore recs m v) =
      if m ∈ keysOf recs then keysOf recs else keysOf recs ++ [m] := by
  unfold maxScore
  split_ifs with h
  · exact keysOf_map_fst recs _ (fun q => by by_cases hq : q.1 = m <;> simp [hq])
  · simp [keysOf]

theorem keysOf_nil : keysOf [] = [] := rfl

theorem keysOf_cons (q : ℕ × ℝ) (qs : List (ℕ × ℝ)) :
    keysOf (q :: qs) = q.1 :: keysOf qs := rfl

theorem scoreOf_eq_none (recs : List (ℕ × ℝ)) (m : ℕ) :
    scoreOf recs m = none ↔ m ∉ keysOf recs := by
  induction recs with
  | nil => simp [scoreOf, keysOf]
  | cons q qs ih =>
    by_cases h : q.1 = m
    · simp [scoreOf, h, keysOf_cons, List.mem_cons]
    · have h2 : ¬ m = q.1 := fun e => h e.symm
      simp [scoreOf, h, h2, keysOf_cons, List.mem_cons, ih]

theorem scoreOf_isSome (recs : List (ℕ × ℝ)) (m : ℕ) (h : m ∈ keysOf recs) :
    ∃ v, scoreOf recs m = some v := by
  cases hs : scoreOf recs m with
  | none => exact absurd ((scoreOf_eq_none recs m).mp hs) (by simp [h])
  | some v => exact ⟨v, rfl⟩

theorem scoreOf_mem (recs : List (ℕ × ℝ)) (m : ℕ) (v : ℝ)
    (h : scoreOf recs m = some v) : (m, v) ∈ recs := by
  induction recs with
  | nil => simp [scoreOf] at h
  | cons q qs ih =>
    by_cases hq : q.1 = m
    · simp only [scoreOf, if_pos hq, Option.some.injEq] at h
      exact List.mem_cons.mpr (Or.inl (by rw [← hq, ← h]))
    · simp only [scoreOf, if_neg hq] at h
      exact List.mem_cons.mpr (Or.inr (ih h))

theorem scoreOf_map_add (recs : List (ℕ × ℝ)) (m : ℕ) (v : ℝ) (mp : ℕ) :
    scoreOf (recs.map (fun q => if q.1 = m then (q.1, q.2 + v) else q)) mp =
      if mp = m then (scoreOf recs mp).map (· + v) else scoreOf recs mp := by
  induction recs with
  | nil => simp [scoreOf]
  | cons q qs ih =>
    by_cases h1 : q.1 = m
    · by_cases h2 : mp = m
      · subst h2
        simp [scoreOf, h1]
      · have h4 : ¬ m = mp := fun e => h2 e.symm
        simp [scoreOf, h1, h2, h4, ih]
    · by_cases h2 : q.1 = mp
      · subst h2
        simp [scoreOf, h1]
      · simp [scoreOf, h1, h2, ih]

theorem scoreOf_map_setv (recs : List (ℕ × ℝ)) (m : ℕ) (v : ℝ) (mp : ℕ) :
    scoreOf (recs.map (fun q => if q.1 = m then (q.1, v) else q)) mp =
      if mp = m then (scoreOf recs mp).map (fun _ => v) else scoreOf recs mp := by
  induction recs with
  | nil => simp [scoreOf]
  | cons q qs ih =>
    by_cases h1 : q.1 = m
    · by_cases h2 : mp = m
      · subst h2
        simp [scoreOf, h1]
      · have h4 : ¬ m = mp := fun e => h2 e.symm
        simp [scoreOf, h1, h2, h4, ih]
    · by_cases h2 : q.1 = mp
      · subst h2
        simp [scoreOf, h1]
      · simp [scoreOf, h1, h2, ih]

theorem scoreOf_map_max (recs : List (ℕ × ℝ)) (m : ℕ) (v : ℝ) (mp : ℕ) :
    scoreOf (recs.map (fun q => if q.1 = m then (q.1, max q.2 v) else q)) mp =
      if mp = m then (scoreOf recs mp).map (fun w => max w v) else scoreOf recs mp := by
  induction recs with
  | nil => simp [scoreOf]
  | cons q qs ih =>
    by_cases h1 : q.1 = m
    · by_cases h2 : mp = m
      · subst h2
        simp [scoreOf, h1]
      · have h4 : ¬ m = mp := fun e => h2 e.symm
        simp [scoreOf, h1, h2, h4, ih]
    · by_cases h2 : q.1 = mp
      · subst h2
        simp [scoreOf, h1]
      · simp [scoreOf, h1, h2, ih]

theorem scoreOf_append (l1 l2 : List (ℕ × ℝ)) (m : ℕ) :
    scoreOf (l1 ++ l2) m = if m ∈ keysOf l1 then scoreOf l1 m else scoreOf l2 m := by
  induction l1 with
  | nil => simp [scoreOf, keysOf]
  | cons q qs ih =>
    by_cases h : q.1 = m
    · simp [scoreOf, h, keysOf_cons, List.mem_cons]
    · have h2 : ¬ m = q.1 := fun e => h e.symm
      simp [scoreOf, h, h2, keysOf_cons, List.mem_cons, ih]

theorem scoreOf_addScore (recs : List (ℕ × ℝ)) (m : ℕ) (v : ℝ) (mp : ℕ) :
    scoreOf (addScore recs m v) mp =
      if mp = m then some ((scoreOf recs m).getD 0 + v) else scoreOf recs mp := by
  by_cases h : m ∈ keysOf recs
  · rw [addScore, if_pos h, scoreOf_map_add]
    by_cases hm : mp = m
    · subst hm
      rcases scoreOf_isSome recs mp h with ⟨w, hw⟩
      simp [hw]
    · simp [hm]
  · rw [addScore, if_neg h, scoreOf_append]
    by_cases hm : mp = m
    · subst hm
      have hn : scoreOf recs mp = none := (scoreOf_eq_none recs mp).mpr h
      simp [hn, scoreOf, h]
    · have h5 : ¬ m = mp := fun e => hm e.symm
      by_cases hk : mp ∈ keysOf recs
      · simp [hm, hk]
      · have hn : scoreOf recs mp = none := (scoreOf_eq_none recs mp).mpr hk
        simp [hm, hk, hn, h5, scoreOf]

theorem scoreOf_setScore (recs : List (ℕ × ℝ)) (m : ℕ) (v : ℝ) (mp : ℕ) :
    scoreOf (setScore recs m v) mp =
      if mp = m then some v else scoreOf recs mp := by
  by_cases h : m ∈ keysOf recs
  · rw [setScore, if_pos h, scoreOf_map_setv]
    by_cases hm : mp = m
    · subst hm
      rcases scoreOf_isSome recs mp h with ⟨w, hw⟩
      simp [hw]
    · simp [hm]
  · rw [setScore, if_neg h, scoreOf_append]
    by_cases hm : mp = m
    · subst hm
      simp [scoreOf, h]
    · have h5 : ¬ m = mp := fun e => hm e.symm
      by_cases hk : mp ∈ keysOf recs
      · simp [hm, hk]
      · have hn : scoreOf recs mp = none := (scoreOf_eq_none recs mp).mpr hk
        simp [hm, hk, hn, h5, scoreOf]

/-! ### Lemmas about the weighted merge -/

theorem scoreOf_foldl_set (l : List (ℕ × ℝ)) (w : ℝ) (m : ℕ) :
    ∀ init : List (ℕ × ℝ), (keysOf l).Nodup →
      scoreOf (l.foldl (fun recs p => setScore recs p.1 (p.2 * w)) init) m =
        match scoreOf l m with
        | some v => some (v * w)
        | none => scoreOf init m := by
  induction l with
  | nil => intro init h0; simp [scoreOf]
  | cons p ps ih =>
    intro init hnd
    rw [keysOf_cons, List.nodup_cons] at hnd
    rcases hnd with ⟨hp, hps⟩
    rw [List.foldl_cons, ih _ hps]
    by_cases hm : p.1 = m
    · subst hm
      have h1 : scoreOf ps p.1 = none := (scoreOf_eq_none ps p.1).mpr hp
      simp [h1, scoreOf, scoreOf_setScore]
    · have h2 : ¬ m = p.1 := fun e => hm e.symm
      cases hs : scoreOf ps m <;> simp [scoreOf, hm, hs, scoreOf_setScore, h2]

theorem scoreOf_foldl_add (l : List (ℕ × ℝ)) (w : ℝ) (m : ℕ) :
    ∀ init : List (ℕ × ℝ), (keysOf l).Nodup →
      scoreOf (l.foldl (fun recs p => addScore recs p.1 (p.2 * w)) init) m =
        match scoreOf l m with
        | some v => some ((scoreOf init m).getD 0 + v * w)
        | none => scoreOf init m := by
  induction l with
  | nil => intro init h0; simp [scoreOf]
  | cons p ps ih =>
    intro init hnd
    rw [keysOf_cons, List.nodup_cons] at hnd
    rcases hnd with ⟨hp, hps⟩
    rw [List.foldl_cons, ih _ hps]
    by_cases hm : p.1 = m
    · subst hm
      have h1 : scoreOf ps p.1 = none := (scoreOf_eq_none ps p.1).mpr hp
      simp [h1, scoreOf, scoreOf_addScore]
    · have h2 : ¬ m = p.1 := fun e => hm e.symm
      cases hs : scoreOf ps m <;> simp [scoreOf, hm, hs, scoreOf_addScore, h2]

theorem scoreOf_combineRecs (u i c : List (ℕ × ℝ))
    (hu : (keysOf u).Nodup) (hi : (keysOf i).Nodup) (hc : (keysOf c).Nodup)
    (m : ℕ) (hm : m ∈ keysOf u ∨ m ∈ keysOf i ∨ m ∈ keysOf c) :
    scoreOf (combineRecs u i c) m =
      some (0.4 * (scoreOf u m).getD 0 + 0.3 * (scoreOf i m).getD 0 +
        0.3 * (scoreOf c m).getD 0) := by
  unfold combineRecs
  rw [scoreOf_foldl_add c _ _ _ hc, scoreOf_foldl_add i _ _ _ hi,
    scoreOf_foldl_set u _ _ _ hu]
  rcases hsu : scoreOf u m with _ | a <;> rcases hsi : scoreOf i m with _ | b <;>
      rcases hsc : scoreOf c m with _ | d
  · exfalso
    rcases hm with hm | hm | hm
    · exact (scoreOf_eq_none u m).mp hsu hm
    · exact (scoreOf_eq_none i m).mp hsi hm
    · exact (scoreOf_eq_none c m).mp hsc hm
  all_goals simp [scoreOf]
  all_goals ring_nf

/-! ### Key-set lemmas for the strategy outputs -/

theorem mem_keysOf_addScore (recs : List (ℕ × ℝ)) (m : ℕ) (v : ℝ) (mp : ℕ)
    (h : mp ∈ keysOf (addScore recs m v)) : mp ∈ keysOf recs ∨ mp = m := by
  rw [keysOf_addScore] at h
  split_ifs at h with hm
  · exact Or.inl h
  · rcases List.mem_append.mp h with h1 | h1
    · exact Or.inl h1
    · exact Or.inr (by simpa using h1)

theorem mem_keysOf_maxScore (recs : List (ℕ × ℝ)) (m : ℕ) (v : ℝ) (mp : ℕ)
    (h : mp ∈ keysOf (maxScore recs m v)) : mp ∈ keysOf recs ∨ mp = m := by
  rw [keysOf_maxScore] at h
  split_ifs at h with hm
  · exact Or.inl h
  · rcases List.mem_append.mp h with h1 | h1
    · exact Or.inl h1
    · exact Or.inr (by simpa using h1)

theorem nodup_keysOf_addScore (recs : List (ℕ × ℝ)) (m : ℕ) (v : ℝ)
    (h : (keysOf recs).Nodup) : (keysOf (addScore recs m v)).Nodup := by
  rw [keysOf_addScore]
  split_ifs with hm
  · exact h
  · simp [List.nodup_append, h, hm]

theorem nodup_keysOf_maxScore (recs : List (ℕ × ℝ)) (m : ℕ) (v : ℝ)
    (h : (keysOf recs).Nodup) : (keysOf (maxScore recs m v)).Nodup := by
  rw [keysOf_maxScore]
  split_ifs with hm
  · exact h
  · simp [List.nodup_append, h, hm]

theorem nodup_keysOf_foldl {β : Type} (step : List (ℕ × ℝ) → β → List (ℕ × ℝ))
    (hstep : ∀ acc b, (keysOf acc).Nodup → (keysOf (step acc b)).Nodup) :
    ∀ (l : List β) (init : List (ℕ × ℝ)), (keysOf init).Nodup →
      (keysOf (l.foldl step init)).Nodup := by
  intro l
  induction l with
  | nil => intro init h; simpa using h
  | cons b bs ih =>
    intro init h
    rw [List.foldl_cons]
    exact ih _ (hstep init b h)

theorem not_mem_keysOf_foldl {β : Type} (m : ℕ) (step : List (ℕ × ℝ) → β → List (ℕ × ℝ))
    (hstep : ∀ acc b, m ∉ keysOf acc → m ∉ keysOf (step acc b)) :
    ∀ (l : List β) (init : List (ℕ × ℝ)), m ∉ keysOf init →
      m ∉ keysOf (l.foldl step init) := by
  intro l
  induction l with
  | nil => intro init h; simpa using h
  | cons b bs ih =>
    intro init h
    rw [List.foldl_cons]
    exact ih _ (hstep init b h)

theorem keysOf_sortDesc_perm (l : List (ℕ × ℝ)) :
    (keysOf (sortDesc l)).Perm (keysOf l) := (sortDesc_perm l).map Prod.fst

theorem mem_keysOf_take (l : List (ℕ × ℝ)) (n m : ℕ)
    (h : m ∈ keysOf (l.take n)) : m ∈ keysOf l := by
  unfold keysOf at h ⊢
  rw [List.map_take] at h
  exact List.mem_of_mem_take h

theorem nodup_keysOf_sortDesc_take (l : List (ℕ × ℝ)) (n : ℕ)
    (h : (keysOf l).Nodup) : (keysOf ((sortDesc l).take n)).Nodup := by
  have h1 : (keysOf (sortDesc l)).Nodup := (keysOf_sortDesc_perm l).nodup_iff.mpr h
  unfold keysOf
  rw [List.map_take]
  exact h1.sublist (List.take_sublist n _)

theorem nodup_keysOf_user_based (ratings : List RatingRecord) (st : Prepared)
    (uid : String) (n : ℕ) :
    (keysOf (get_user_based_recommendations ratings st uid n)).Nodup := by
  simp only [get_user_based_recommendations]
  split_ifs with h
  · apply nodup_keysOf_sortDesc_take
    apply nodup_keysOf_foldl _ ?_ _ _ (by simp [keysOf])
    intro acc sIdx hacc
    apply nodup_keysOf_foldl _ ?_ _ _ hacc
    intro acc2 r hacc2
    split_ifs with hr
    · exact hacc2
    · exact nodup_keysOf_addScore _ _ _ hacc2
  · simp [keysOf]

theorem nodup_keysOf_item_based (ratings : List RatingRecord) (st : Prepared)
    (uid : String) (n : ℕ) :
    (keysOf (get_item_based_recommendations ratings st uid n)).Nodup := by
  simp only [get_item_based_recommendations]
  apply nodup_keysOf_sortDesc_take
  apply nodup_keysOf_foldl _ ?_ _ _ (by simp [keysOf])
  intro acc r hacc
  apply nodup_keysOf_foldl _ ?_ _ _ hacc
  intro acc2 sIdx hacc2
  split_ifs with hr
  · exact hacc2
  · exact nodup_keysOf_addScore _ _ _ hacc2

theorem nodup_keysOf_content_based (nlp : NLPState) (uRecs : List RatingRecord)
    (n : ℕ) :
    (keysOf (get_content_based_recommendations nlp uRecs n)).Nodup := by
  simp only [get_content_based_recommendations]
  apply nodup_keysOf_sortDesc_take
  apply nodup_keysOf_foldl _ ?_ _ _ (by simp [keysOf])
  intro acc r hacc
  apply nodup_keysOf_foldl _ ?_ _ _ hacc
  intro acc2 mid hacc2
  exact nodup_keysOf_maxScore _ _ _ hacc2

theorem user_based_excludes_rated (ratings : List RatingRecord) (st : Prepared)
    (uid : String) (n m : ℕ) (hm : m ∈ ratedMovies ratings uid) :
    m ∉ keysOf (get_user_based_recommendations ratings st uid n) := by
  simp only [get_user_based_recommendations]
  split_ifs with h
  · intro hmem
    have h2 := mem_keysOf_take _ _ _ hmem
    have h3 := (keysOf_sortDesc_perm _).mem_iff.mp h2
    refine not_mem_keysOf_foldl m _ ?_ _ _ (by simp [keysOf]) h3
    intro acc sIdx hacc
    refine not_mem_keysOf_foldl m _ ?_ _ _ hacc
    intro acc2 r hacc2
    split_ifs with hr
    · exact hacc2
    · intro hin
      rcases mem_keysOf_addScore _ _ _ _ hin with h4 | h4
      · exact hacc2 h4
      · exact hr (h4 ▸ hm)
  · simp [keysOf]

theorem item_based_excludes_rated (ratings : List RatingRecord) (st : Prepared)
    (uid : String) (n m : ℕ) (hm : m ∈ ratedMovies ratings uid) :
    m ∉ keysOf (get_item_based_recommendations ratings st uid n) := by
  simp only [get_item_based_recommendations]
  intro hmem
  have h2 := mem_keysOf_take _ _ _ hmem
  have h3 := (keysOf_sortDesc_perm _).mem_iff.mp h2
  refine not_mem_keysOf_foldl m _ ?_ _ _ (by simp [keysOf]) h3
  intro acc r hacc
  refine not_mem_keysOf_foldl m _ ?_ _ _ hacc
  intro acc2 sIdx hacc2
  split_ifs with hr
  · exact hacc2
  · intro hin
    rcases mem_keysOf_addScore _ _ _ _ hin with h4 | h4
    · exact hacc2 h4
    · exact hr (h4 ▸ hm)

/-! ### Pivot-index membership -/

theorem mem_insertLe {α : Type} (le : α → α → Bool) (a x : α) (l : List α) :
    x ∈ insertLe le a l ↔ x = a ∨ x ∈ l := by
  induction l with
  | nil => simp [insertLe]
  | cons b bs ih =>
    by_cases h : le a b
    · simp [insertLe, h, List.mem_cons]
    · simp [insertLe, h, List.mem_cons, ih]
      tauto

theorem mem_sortLe {α : Type} (le : α → α → Bool) (x : α) (l : List α) :
    x ∈ sortLe le l ↔ x ∈ l := by
  induction l with
  | nil => simp [sortLe]
  | cons a as ih => simp [sortLe, mem_insertLe, ih, List.mem_cons]

theorem prepare_data_eq (ratings : List RatingRecord) (st : Prepared)
    (h : prepare_data ratings = some st) :
    st.ratings = ratings ∧ st.users = sortedUniqStr (ratings.map (·.user_id)) ∧
      st.movies = sortedUniqNat (ratings.map (·.movie_id)) := by
  unfold prepare_data at h
  split_ifs at h with h1 h2
  simp only [] at h
  split_ifs at h with h3
  have h4 := Option.some.inj h
  rw [← h4]
  exact ⟨rfl, rfl, rfl⟩

theorem mem_users_iff (ratings : List RatingRecord) (st : Prepared)
    (h : prepare_data ratings = some st) (uid : String) :
    uid ∈ st.users ↔ 0 < (userRecords ratings uid).length := by
  rcases prepare_data_eq ratings st h with ⟨_, hu, _⟩
  rw [hu]
  unfold sortedUniqStr
  rw [mem_sortLe, List.mem_dedup]
  constructor
  · intro hin
    rcases List.mem_map.mp hin with ⟨r, hr, hruid⟩
    have hmem : r ∈ userRecords ratings uid := by
      unfold userRecords
      rw [List.mem_filter]
      exact ⟨hr, by simp [hruid]⟩
    exact List.length_pos.mpr (List.ne_nil_of_mem hmem)
  · intro hlen
    rcases List.exists_mem_of_length_pos hlen with ⟨r, hr⟩
    unfold userRecords at hr
    rw [List.mem_filter] at hr
    rcases hr with ⟨hr1, hr2⟩
    exact List.mem_map.mpr ⟨r, hr1, by simpa using hr2⟩

/-! ### Cosine similarity symmetry -/

theorem cosSim_comm (v w : ℕ → ℝ) (len : ℕ) : cosSim v w len = cosSim w v len := by
  unfold cosSim dotR
  rw [mul_comm (Real.sqrt _) (Real.sqrt _)]
  congr 1
  exact Finset.sum_congr rfl (fun k _ => mul_comm _ _)

/-! ### Normalization lemmas -/

theorem colVar_entry_eq_mean (st : Prepared) (i j : ℕ) (hi : i < st.users.length)
    (hv : colVar st j = 0) : rawEntry st i j = colMean st j := by
  rcases Nat.lt_or_ge 1 st.users.length with hn | hn
  · unfold colVar at hv
    rw [div_eq_zero_iff] at hv
    rcases hv with hv | hv
    · have hsum := (Finset.sum_eq_zero_iff_of_nonneg
        (fun k _ => sq_nonneg (rawEntry st k j - colMean st j))).mp hv
      have h5 := hsum i (Finset.mem_range.mpr hi)
      have h6 := (pow_eq_zero_iff (by norm_num : (2:ℕ) ≠ 0)).mp h5
      linarith
    · exfalso
      rw [Nat.cast_eq_zero] at hv
      omega
  · have hn1 : st.users.length = 1 := by omega
    have hi0 : i = 0 := by omega
    subst hi0
    unfold colMean
    rw [hn1, Finset.sum_range_one, Nat.cast_one, div_one]

theorem normEntry_of_var_zero (st : Prepared) (i j : ℕ) (hi : i < st.users.length)
    (hv : colVar st j = 0) : normEntry st i j = 0 := by
  unfold normEntry
  rw [colVar_entry_eq_mean st i j hi hv]
  simp

theorem colMean_of_const (st : Prepared) (j : ℕ) (x : ℚ) (hn : 0 < st.users.length)
    (hall : ∀ i, i < st.users.length → rawEntry st i j = x) :
    colMean st j = x := by
  unfold colMean
  rw [Finset.sum_congr rfl (fun k hk => hall k (Finset.mem_range.mp hk))]
  rw [Finset.sum_const, Finset.card_range, nsmul_eq_mul]
  exact mul_div_cancel_left₀ x (Nat.cast_ne_zero.mpr (by omega))

theorem normEntry_of_const (st : Prepared) (i j : ℕ) (x : ℚ)
    (hi : i < st.users.length) (hall : ∀ k, k < st.users.length → rawEntry st k j = x) :
    normEntry st i j = 0 := by
  unfold normEntry
  rw [hall i hi, colMean_of_const st j x (lt_of_le_of_lt (Nat.zero_le i) hi) hall]
  simp

theorem computeRecs_fst (ratings : List RatingRecord) (st : Prepared) (nlp : NLPState)
    (uid : String) (n : ℕ) :
    (computeRecs ratings st nlp uid n).1 =
      ((sortDesc (combined_scores ratings st nlp uid n)).take n).map Prod.fst := by
  simp only [computeRecs]
  split_ifs with h
  · simpa using h.symm
  · rfl

/-! ### Claim theorems -/

/-- C1 (amended): the user-based and item-based candidate lists never
contain a movie the requesting user has already rated, but the
content-based strategy applies no such filter, so the final list of
`get_recommendations` can contain an already-rated movie (see the
counterexample). -/
theorem recommendations_exclude_rated_collaborative_only
    (ratings : List RatingRecord) (st : Prepared) (uid : String) (n m : ℕ)
    (hm : m ∈ ratedMovies ratings uid) :
    m ∉ keysOf (get_user_based_recommendations ratings st uid n) ∧
      m ∉ keysOf (get_item_based_recommendations ratings st uid n) :=
  ⟨user_based_excludes_rated ratings st uid n m hm,
   item_based_excludes_rated ratings st uid n m hm⟩

/-- C2 (amended): an input containing two records for the same
`(user_id, movie_id)` pair does not build a matrix at all: the pivot
fails, `_prepare_data` leaves every matrix uninitialized, and
`get_recommendations` reports the uninitialized status (there is no
last-record-wins deduplication). -/
theorem duplicate_records_fail_construction (ratings : List RatingRecord)
    (uid : String) (n : ℕ) (md : List (ℕ × Option String))
    (hdup : ¬ (pairKeys ratings).Nodup) :
    prepare_data ratings = none ∧
      get_recommendations (mkRecommender ratings) uid n md =
        ([], Status.uninitialized) := by
  have hne : ratings ≠ [] := by
    intro he
    subst he
    exact hdup (by simp [pairKeys])
  have hp : prepare_data ratings = none := by
    unfold prepare_data
    rw [if_neg hne, if_pos hdup]
  exact ⟨hp, by simp [get_recommendations, mkRecommender, hp]⟩

/-- C3 (amended): only the empty snapshot (or a failed pivot) leaves the
engine uninitialized; every non-empty duplicate-free snapshot — including
one with a single user or a single movie — builds the matrices, so the
engine computes the degenerate 1×1 similarity matrix rather than
reporting an uninitialized state (see the counterexample). -/
theorem initialization_fails_only_on_empty (ratings : List RatingRecord)
    (uid : String) (n : ℕ) (md : List (ℕ × Option String)) :
    (ratings = [] → prepare_data ratings = none ∧
      get_recommendations (mkRecommender ratings) uid n md =
        ([], Status.uninitialized)) ∧
    (ratings ≠ [] → (pairKeys ratings).Nodup →
      ∃ st, prepare_data ratings = some st) := by
  constructor
  · intro he
    subst he
    have hp : prepare_data [] = none := by simp [prepare_data]
    exact ⟨hp, by simp [get_recommendations, mkRecommender, hp]⟩
  · intro hne hnd
    rcases List.exists_mem_of_ne_nil ratings hne with ⟨r, hr⟩
    have husers : sortedUniqStr (ratings.map (·.user_id)) ≠ [] :=
      List.ne_nil_of_mem ((mem_sortLe _ _ _).mpr
        (List.mem_dedup.mpr (List.mem_map.mpr ⟨r, hr, rfl⟩)))
    have hmovies : sortedUniqNat (ratings.map (·.movie_id)) ≠ [] :=
      List.ne_nil_of_mem ((mem_sortLe _ _ _).mpr
        (List.mem_dedup.mpr (List.mem_map.mpr ⟨r, hr, rfl⟩)))
    refine ⟨⟨ratings, sortedUniqStr (ratings.map (·.user_id)),
      sortedUniqNat (ratings.map (·.movie_id))⟩, ?_⟩
    unfold prepare_data
    rw [if_neg hne, if_neg (by simpa using hnd)]
    simp only []
    rw [if_neg (by push_neg; exact ⟨husers, hmovies⟩)]

/-- C4: a movie scored by at least one strategy gets the combined score
`0.4 · user + 0.3 · item + 0.3 · content`, where a strategy that did not
score the movie contributes 0 for its term. -/
theorem combined_score_weighted_sum (ratings : List RatingRecord) (st : Prepared)
    (nlp : NLPState) (uid : String) (n m : ℕ)
    (hm : m ∈ keysOf (get_user_based_recommendations ratings st uid n) ∨
      m ∈ keysOf (get_item_based_recommendations ratings st uid n) ∨
      m ∈ keysOf (get_content_based_recommendations nlp (userRecords ratings uid) n)) :
    scoreOf (combined_scores ratings st nlp uid n) m =
      some (0.4 * (scoreOf (get_user_based_recommendations ratings st uid n) m).getD 0 +
        0.3 * (scoreOf (get_item_based_recommendations ratings st uid n) m).getD 0 +
        0.3 * (scoreOf (get_content_based_recommendations nlp
          (userRecords ratings uid) n) m).getD 0) := by
  unfold combined_scores
  exact scoreOf_combineRecs _ _ _ (nodup_keysOf_user_based ratings st uid n)
    (nodup_keysOf_item_based ratings st uid n)
    (nodup_keysOf_content_based nlp (userRecords ratings uid) n) m hm

/-- C5 (amended): the final list is sorted by combined score in descending
order (a permutation of the combined score dict, stably sorted) and
truncated to at most `n` entries; ties are left in the stable order of the
combined dict (first contribution first), not re-sorted by ascending
movie_id (see the counterexample). -/
theorem final_ranking_sorted_desc_truncated (ratings : List RatingRecord)
    (st : Prepared) (nlp : NLPState) (uid : String) (n : ℕ) :
    (sortDesc (combined_scores ratings st nlp uid n)).Perm
      (combined_scores ratings st nlp uid n) ∧
    (sortDesc (combined_scores ratings st nlp uid n)).Pairwise
      (fun a b => b.2 ≤ a.2) ∧
    (computeRecs ratings st nlp uid n).1 =
      ((sortDesc (combined_scores ratings st nlp uid n)).take n).map Prod.fst ∧
    (computeRecs ratings st nlp uid n).1.length ≤ n := by
  refine ⟨sortDesc_perm _, sortDesc_pairwise _, computeRecs_fst ratings st nlp uid n, ?_⟩
  rw [computeRecs_fst]
  simp [List.length_take]

/-- C6: every entry of the normalized matrix is the z-score
`(rating − column mean) / column standard deviation`; a column with zero
variance — in particular one where all raters agree, or a single-user
matrix — has every entry equal to 0. -/
theorem normalized_matrix_zscore (st : Prepared) (i j : ℕ)
    (hi : i < st.users.length) :
    normEntry st i j = ((rawEntry st i j - colMean st j : ℚ) : ℝ) / colStd st j ∧
    (colVar st j = 0 → normEntry st i j = 0) ∧
    ((∀ i1, i1 < st.users.length → ∀ i2, i2 < st.users.length →
        rawEntry st i1 j = rawEntry st i2 j) → normEntry st i j = 0) ∧
    (st.users.length = 1 → normEntry st i j = 0) := by
  refine ⟨rfl, fun hv => normEntry_of_var_zero st i j hi hv, ?_, ?_⟩
  · intro hall
    exact normEntry_of_const st i j (rawEntry st i j) hi
      (fun k hk => hall k hk i hi)
  · intro h1
    apply normEntry_of_var_zero st i j hi
    unfold colVar
    rw [h1]
    norm_num

/-- C7: both similarity matrices are symmetric: cosine similarity of the
normalized rows (users) and of the normalized columns (movies) is
invariant under swapping the two indices. -/
theorem similarity_matrices_symmetric (st : Prepared) (i j : ℕ) :
    userSim st i j = userSim st j i ∧ itemSim st i j = itemSim st j i :=
  ⟨cosSim_comm (userRow st i) (userRow st j) st.movies.length,
   cosSim_comm (itemCol st i) (itemCol st j) st.users.length⟩

/-- C8: on an initialized engine, a user with no rating records gets
`([], userNotFound)`; a user with 1 or 2 records gets
`([], insufficientRatings 3)` — the threshold 3 surfaced in the status —
and a user with at least 3 records proceeds to the strategy computation. -/
theorem eligibility_status_checks (ratings : List RatingRecord) (st : Prepared)
    (uid : String) (n : ℕ) (md : List (ℕ × Option String))
    (h : prepare_data ratings = some st) :
    ((userRecords ratings uid).length = 0 →
      get_recommendations (mkRecommender ratings) uid n md =
        ([], Status.userNotFound)) ∧
    (0 < (userRecords ratings uid).length → (userRecords ratings uid).length < 3 →
      get_recommendations (mkRecommender ratings) uid n md =
        ([], Status.insufficientRatings 3)) ∧
    (3 ≤ (userRecords ratings uid).length →
      get_recommendations (mkRecommender ratings) uid n md =
        computeRecs ratings st (if md = [] then nlpInit else nlp_fit nlpInit md)
          uid n) := by
  refine ⟨?_, ?_, ?_⟩
  · intro h0
    have hmem : uid ∉ st.users := by
      rw [mem_users_iff ratings st h uid]
      omega
    simp [get_recommendations, mkRecommender, h, hmem]
  · intro h1 h2
    have hmem : uid ∈ st.users := (mem_users_iff ratings st h uid).mpr h1
    simp [get_recommendations, mkRecommender, h, hmem, h2]
  · intro h3
    have hmem : uid ∈ st.users := (mem_users_iff ratings st h uid).mpr (by omega)
    simp [get_recommendations, mkRecommender, h, hmem, Nat.not_lt.mpr h3]

/-- C9 (amended): a blended score is the weighted sum of the per-strategy
scores, hence non-negative whenever every per-strategy score is
non-negative; without that assumption the blended score can be negative,
because cosine similarities can be negative (see the counterexample). -/
theorem blended_score_nonneg_of_strategy_scores (ratings : List RatingRecord)
    (st : Prepared) (nlp : NLPState) (uid : String) (n m : ℕ) (v : ℝ)
    (hu : ∀ p ∈ get_user_based_recommendations ratings st uid n, 0 ≤ p.2)
    (hi : ∀ p ∈ get_item_based_recommendations ratings st uid n, 0 ≤ p.2)
    (hc : ∀ p ∈ get_content_based_recommendations nlp (userRecords ratings uid) n,
      0 ≤ p.2)
    (hv : scoreOf (combined_scores ratings st nlp uid n) m = some v) : 0 ≤ v := by
  by_cases hm : m ∈ keysOf (get_user_based_recommendations ratings st uid n) ∨
      m ∈ keysOf (get_item_based_recommendations ratings st uid n) ∨
      m ∈ keysOf (get_content_based_recommendations nlp (userRecords ratings uid) n)
  · have hval := scoreOf_combineRecs _ _ _ (nodup_keysOf_user_based ratings st uid n)
      (nodup_keysOf_item_based ratings st uid n)
      (nodup_keysOf_content_based nlp (userRecords ratings uid) n) m hm
    rw [show combineRecs (get_user_based_recommendations ratings st uid n)
        (get_item_based_recommendations ratings st uid n)
        (get_content_based_recommendations nlp (userRecords ratings uid) n) =
        combined_scores ratings st nlp uid n from rfl] at hval
    rw [hv] at hval
    have hveq := Option.some.inj hval
    have hgu : 0 ≤ (scoreOf (get_user_based_recommendations ratings st uid n) m).getD 0 := by
      cases hs : scoreOf (get_user_based_recommendations ratings st uid n) m with
      | none => simp
      | some w => simpa using hu (m, w) (scoreOf_mem _ _ _ hs)
    have hgi : 0 ≤ (scoreOf (get_item_based_recommendations ratings st uid n) m).getD 0 := by
      cases hs : scoreOf (get_item_based_recommendations ratings st uid n) m with
      | none => simp
      | some w => simpa using hi (m, w) (scoreOf_mem _ _ _ hs)
    have hgc : 0 ≤ (scoreOf (get_content_based_recommendations nlp
        (userRecords ratings uid) n) m).getD 0 := by
      cases hs : scoreOf (get_content_based_recommendations nlp
          (userRecords ratings uid) n) m with
      | none => simp
      | some w => simpa using hc (m, w) (scoreOf_mem _ _ _ hs)
    rw [hveq]
    have t1 : (0:ℝ) ≤ 0.4 * (scoreOf (get_user_based_recommendations ratings st uid n) m).getD 0 :=
      mul_nonneg (by norm_num) hgu
    have t2 : (0:ℝ) ≤ 0.3 * (scoreOf (get_item_based_recommendations ratings st uid n) m).getD 0 :=
      mul_nonneg (by norm_num) hgi
    have t3 : (0:ℝ) ≤ 0.3 * (scoreOf (get_content_based_recommendations nlp
        (userRecords ratings uid) n) m).getD 0 :=
      mul_nonneg (by norm_num) hgc
    linarith
  · push_neg at hm
    rcases hm with ⟨hm1, hm2, hm3⟩
    have hnone : scoreOf (combined_scores ratings st nlp uid n) m = none := by
      unfold combined_scores combineRecs
      rw [scoreOf_foldl_add _ _ _ _ (nodup_keysOf_content_based nlp
        (userRecords ratings uid) n)]
      rw [(scoreOf_eq_none _ _).mpr hm3]
      rw [scoreOf_foldl_add _ _ _ _ (nodup_keysOf_item_based ratings st uid n)]
      rw [(scoreOf_eq_none _ _).mpr hm2]
      rw [scoreOf_foldl_set _ _ _ _ (nodup_keysOf_user_based ratings st uid n)]
      rw [(scoreOf_eq_none _ _).mpr hm1]
      rfl
    rw [hv] at hnone
    cases hnone

/-- C10: `get_recommendations` is total: it always returns a pair of a
movie-id list and one of the five statuses, the list is non-empty exactly
when the status is `success`, and a failed matrix construction (the one
genuinely raising operation, caught in `_prepare_data`) degrades to an
empty list with the uninitialized status. -/
theorem get_recommendations_never_raises (ratings : List RatingRecord)
    (uid : String) (n : ℕ) (md : List (ℕ × Option String)) :
    ((get_recommendations (mkRecommender ratings) uid n md).2 = Status.success ↔
      (get_recommendations (mkRecommender ratings) uid n md).1 ≠ []) ∧
    ((get_recommendations (mkRecommender ratings) uid n md).2 = Status.uninitialized ∨
      (get_recommendations (mkRecommender ratings) uid n md).2 = Status.userNotFound ∨
      (get_recommendations (mkRecommender ratings) uid n md).2 =
        Status.insufficientRatings 3 ∨
      (get_recommendations (mkRecommender ratings) uid n md).2 =
        Status.noRecommendations ∨
      (get_recommendations (mkRecommender ratings) uid n md).2 = Status.success) ∧
    (prepare_data ratings = none →
      get_recommendations (mkRecommender ratings) uid n md =
        ([], Status.uninitialized)) := by
  cases hp : prepare_data ratings with
  | none => simp [get_recommendations, mkRecommender, hp]
  | some st =>
    simp only [get_recommendations, mkRecommender, hp]
    by_cases h1 : uid ∈ st.users
    · by_cases h2 : (userRecords ratings uid).length < 3
      · simp [h1, h2, hp]
      · rw [if_pos h1, if_neg h2]
        generalize (if md = [] then nlpInit else nlp_fit nlpInit md) = nlp2
        simp only [computeRecs]
        split_ifs with h3
        · simp [hp]
        · refine ⟨iff_of_true rfl h3, Or.inr (Or.inr (Or.inr (Or.inr rfl))), ?_⟩
          intro hcontra
          exact hcontra.elim
    · simp [h1, hp]

/-! ### Concrete snapshots used by the witnesses and counterexamples -/

/-- A single-user snapshot: user `u1` rated movies 1, 2, 9 with 5 stars. -/
def exA : List RatingRecord := [⟨"u1", 1, 5⟩, ⟨"u1", 2, 5⟩, ⟨"u1", 9, 5⟩]

/-- The pivoted state of `exA`. -/
def stA : Prepared := ⟨exA, ["u1"], [1, 2, 9]⟩

/-- Metadata giving movies 1, 2, 9 identical one-word overviews. -/
def mdA : List (ℕ × Option String) := [(1, some "x"), (2, some "x"), (9, some "x")]

/-- The content model fitted on `mdA`. -/
def nlpA : NLPState := ⟨some [(1, "x"), (2, "x"), (9, "x")]⟩

/-- A two-user snapshot with opposite rating patterns: `u1` rated movies
1, 2, 3 and `u2` rated only movie 4, all with 5 stars; after z-score
normalization the two users' rows are exact negatives of each other. -/
def exB : List RatingRecord := [⟨"u1", 1, 5⟩, ⟨"u1", 2, 5⟩, ⟨"u1", 3, 5⟩, ⟨"u2", 4, 5⟩]

/-- The pivoted state of `exB`. -/
def stB : Prepared := ⟨exB, ["u1", "u2"], [1, 2, 3, 4]⟩

/-- A snapshot with two records for the same `(user, movie)` pair. -/
def exDup : List RatingRecord := [⟨"u1", 1, 5⟩, ⟨"u1", 1, 3⟩, ⟨"u1", 2, 4⟩]

/-- A snapshot where `u1` has three ratings and `u2` only one. -/
def exW : List RatingRecord :=
  [⟨"u1", 1, 5⟩, ⟨"u1", 2, 5⟩, ⟨"u1", 9, 5⟩, ⟨"u2", 7, 4⟩]

/-- The pivoted state of `exW`. -/
def stW : Prepared := ⟨exW, ["u1", "u2"], [1, 2, 7, 9]⟩

theorem exA_prep : prepare_data exA = some stA := by decide

theorem exA_urecs : userRecords exA "u1" = exA := by decide

theorem exA_rated : ratedMovies exA "u1" = [1, 2, 9] := by decide

theorem exA_var (j : ℕ) : colVar stA j = 0 := by
  unfold colVar
  norm_num [stA]

theorem exA_norm (i j : ℕ) : normEntry stA i j = 0 := by
  unfold normEntry colStd
  rw [exA_var]
  simp

theorem exA_isim (j k : ℕ) : itemSim stA j k = 0 := by
  unfold itemSim cosSim dotR itemCol
  rw [Finset.sum_congr rfl (fun k _ => by rw [exA_norm, zero_mul])]
  simp

theorem stA_users : stA.users = ["u1"] := rfl

theorem stA_movies : stA.movies = [1, 2, 9] := rfl

theorem exA_user : get_user_based_recommendations exA stA "u1" 5 = [] := by
  simp [get_user_based_recommendations, stA_users, stA_movies, argsort, argsortAux,
    sortDesc, List.range_succ, List.range_zero]

theorem exA_item : get_item_based_recommendations exA stA "u1" 5 = [] := by
  simp only [get_item_based_recommendations, exA_urecs]
  rw [show exA = [⟨"u1", 1, 5⟩, ⟨"u1", 2, 5⟩, ⟨"u1", 9, 5⟩] from rfl]
  simp only [List.foldl_cons, List.foldl_nil]
  norm_num [stA_users, stA_movies, exA_isim, argsort, argsortAux, insertIdx', sortDesc,
    List.range_succ, List.range_zero, List.indexOf_cons_self, List.indexOf_cons_ne]

theorem exA_fit : nlp_fit nlpInit mdA = nlpA := by decide

theorem dotW_xx : dotW "x" "x" = 1 := by decide

theorem docSim_xx : docSim "x" "x" = 1 := by
  unfold docSim
  rw [dotW_xx]
  rw [Nat.cast_one, Real.sqrt_one]
  norm_num

theorem exA_gsm (m : ℕ) (hm : m ∈ ([1, 2, 9] : List ℕ)) :
    get_similar_movies nlpA m 5 = [2, 1] := by
  have hrow : ([(1, "x"), (2, "x"), (9, "x")] : List (ℕ × String)).map
      (fun p => docSim "x" p.2) = [1, 1, 1] := by
    simp [docSim_xx]
  fin_cases hm <;>
    (simp only [get_similar_movies, nlpA]
     norm_num [List.indexOf_cons_self, List.indexOf_cons_ne, hrow, argsort,
       argsortAux, insertIdx', le_refl, List.range_succ, List.range_zero])

theorem exA_content :
    get_content_based_recommendations nlpA (userRecords exA "u1") 5 = [(2, 5), (1, 5)] := by
  simp only [get_content_based_recommendations, exA_urecs]
  rw [show exA.filter (fun r => decide (4 ≤ r.rating)) = exA by decide]
  rw [show exA = [⟨"u1", 1, 5⟩, ⟨"u1", 2, 5⟩, ⟨"u1", 9, 5⟩] from rfl]
  simp only [List.foldl_cons, List.foldl_nil]
  rw [exA_gsm 1 (by decide), exA_gsm 2 (by decide), exA_gsm 9 (by decide)]
  norm_num [maxScore, keysOf, sortDesc, insertDesc, le_refl, max_self]

theorem exA_combined :
    combined_scores exA stA nlpA "u1" 5 = [(2, 3/2), (1, 3/2)] := by
  unfold combined_scores
  rw [exA_user, exA_item, exA_content]
  norm_num [combineRecs, addScore, setScore, keysOf]

theorem exA_run :
    get_recommendations (mkRecommender exA) "u1" 5 mdA = ([2, 1], Status.success) := by
  simp only [get_recommendations, mkRecommender, exA_prep]
  rw [if_pos (show "u1" ∈ stA.users by decide)]
  rw [if_neg (show ¬ (userRecords exA "u1").length < 3 by decide)]
  rw [if_neg (show ¬ mdA = [] by decide)]
  rw [exA_fit]
  simp only [computeRecs]
  rw [exA_combined]
  norm_num [sortDesc, insertDesc]
  exact fun h => absurd h (by simp)

theorem exA_content_unfit :
    get_content_based_recommendations nlpInit (userRecords exA "u1") 5 = [] := by
  simp only [get_content_based_recommendations, exA_urecs]
  rw [show exA.filter (fun r => decide (4 ≤ r.rating)) = exA by decide]
  rw [show exA = [⟨"u1", 1, 5⟩, ⟨"u1", 2, 5⟩, ⟨"u1", 9, 5⟩] from rfl]
  simp [get_similar_movies, nlpInit, sortDesc]

theorem exA_combined_unfit :
    combined_scores exA stA nlpInit "u1" 5 = [] := by
  unfold combined_scores
  rw [exA_user, exA_item, exA_content_unfit]
  simp [combineRecs]

theorem exA_run_nomd :
    get_recommendations (mkRecommender exA) "u1" 5 [] = ([], Status.noRecommendations) := by
  simp only [get_recommendations, mkRecommender, exA_prep]
  rw [if_pos (show "u1" ∈ stA.users by decide)]
  rw [if_neg (show ¬ (userRecords exA "u1").length < 3 by decide)]
  simp only [ite_true]
  simp only [computeRecs]
  rw [exA_combined_unfit]
  simp [sortDesc]

theorem exB_prep : prepare_data exB = some stB := by decide

theorem stB_users : stB.users = ["u1", "u2"] := rfl

theorem stB_movies : stB.movies = [1, 2, 3, 4] := rfl

theorem exB_urecs1 :
    userRecords exB "u1" = [⟨"u1", 1, 5⟩, ⟨"u1", 2, 5⟩, ⟨"u1", 3, 5⟩] := by decide

theorem exB_urecs2 : userRecords exB "u2" = [⟨"u2", 4, 5⟩] := by decide

theorem exB_rated : ratedMovies exB "u1" = [1, 2, 3] := by decide

theorem exB_raw0 (j : ℕ) (hj : j < 3) : rawEntry stB 0 j = 5 := by
  interval_cases j <;> decide

theorem exB_raw1 (j : ℕ) (hj : j < 3) : rawEntry stB 1 j = 0 := by
  interval_cases j <;> decide

theorem exB_raw03 : rawEntry stB 0 3 = 0 := by decide

theorem exB_raw13 : rawEntry stB 1 3 = 5 := by decide

theorem exB_mean (j : ℕ) (hj : j < 4) : colMean stB j = 5 / 2 := by
  unfold colMean
  rw [show stB.users.length = 2 from rfl]
  rw [Finset.sum_range_succ, Finset.sum_range_one]
  rcases Nat.lt_or_ge j 3 with h3 | h3
  · rw [exB_raw0 j h3, exB_raw1 j h3]
    norm_num
  · have hj3 : j = 3 := by omega
    subst hj3
    rw [exB_raw03, exB_raw13]
    norm_num

theorem exB_var (j : ℕ) (hj : j < 4) : colVar stB j = 25 / 2 := by
  unfold colVar
  rw [show stB.users.length = 2 from rfl]
  rw [Finset.sum_range_succ, Finset.sum_range_one]
  rw [exB_mean j hj]
  rcases Nat.lt_or_ge j 3 with h3 | h3
  · rw [exB_raw0 j h3, exB_raw1 j h3]
    norm_num
  · have hj3 : j = 3 := by omega
    subst hj3
    rw [exB_raw03, exB_raw13]
    norm_num

/-- The magnitude of every normalized entry of `exB`. -/
noncomputable def eB : ℝ := (5 / 2) / Real.sqrt (25 / 2)

theorem eB_sq : eB ^ 2 = 1 / 2 := by
  rw [sq]
  unfold eB
  rw [div_mul_div_comm, Real.mul_self_sqrt (by norm_num)]
  norm_num

theorem exB_norm0 (j : ℕ) (hj : j < 3) : normEntry stB 0 j = eB := by
  unfold normEntry colStd eB
  rw [exB_var j (by omega), exB_mean j (by omega), exB_raw0 j hj]
  push_cast
  norm_num

theorem exB_norm1 (j : ℕ) (hj : j < 3) : normEntry stB 1 j = -eB := by
  unfold normEntry colStd eB
  rw [exB_var j (by omega), exB_mean j (by omega), exB_raw1 j hj]
  push_cast
  norm_num [neg_div]

theorem exB_norm03 : normEntry stB 0 3 = -eB := by
  unfold normEntry colStd eB
  rw [exB_var 3 (by omega), exB_mean 3 (by omega), exB_raw03]
  push_cast
  norm_num [neg_div]

theorem exB_norm13 : normEntry stB 1 3 = eB := by
  unfold normEntry colStd eB
  rw [exB_var 3 (by omega), exB_mean 3 (by omega), exB_raw13]
  push_cast
  norm_num

theorem exB_dotu00 : dotR (userRow stB 0) (userRow stB 0) stB.movies.length = 2 := by
  rw [show stB.movies.length = 4 from rfl]
  unfold dotR userRow
  rw [Finset.sum_range_succ, Finset.sum_range_succ, Finset.sum_range_succ,
    Finset.sum_range_one]
  rw [exB_norm0 0 (by omega), exB_norm0 1 (by omega), exB_norm0 2 (by omega), exB_norm03]
  linear_combination (4 : ℝ) * eB_sq

theorem exB_dotu01 : dotR (userRow stB 0) (userRow stB 1) stB.movies.length = -2 := by
  rw [show stB.movies.length = 4 from rfl]
  unfold dotR userRow
  rw [Finset.sum_range_succ, Finset.sum_range_succ, Finset.sum_range_succ,
    Finset.sum_range_one]
  rw [exB_norm0 0 (by omega), exB_norm0 1 (by omega), exB_norm0 2 (by omega), exB_norm03,
    exB_norm1 0 (by omega), exB_norm1 1 (by omega), exB_norm1 2 (by omega), exB_norm13]
  linear_combination (-4 : ℝ) * eB_sq

theorem exB_dotu11 : dotR (userRow stB 1) (userRow stB 1) stB.movies.length = 2 := by
  rw [show stB.movies.length = 4 from rfl]
  unfold dotR userRow
  rw [Finset.sum_range_succ, Finset.sum_range_succ, Finset.sum_range_succ,
    Finset.sum_range_one]
  rw [exB_norm1 0 (by omega), exB_norm1 1 (by omega), exB_norm1 2 (by omega), exB_norm13]
  linear_combination (4 : ℝ) * eB_sq

theorem exB_usim00 : userSim stB 0 0 = 1 := by
  unfold userSim cosSim
  rw [exB_dotu00, Real.mul_self_sqrt (by norm_num : (0:ℝ) ≤ 2)]
  norm_num

theorem exB_usim01 : userSim stB 0 1 = -1 := by
  unfold userSim cosSim
  rw [exB_dotu01, exB_dotu00, exB_dotu11, Real.mul_self_sqrt (by norm_num : (0:ℝ) ≤ 2)]
  norm_num

theorem exB_user : get_user_based_recommendations exB stB "u1" 5 = [(4, -5)] := by
  have hargs : argsort [(1:ℝ), -1] = [1, 0] := by
    norm_num [argsort, argsortAux, insertIdx']
  simp only [get_user_based_recommendations, stB_users]
  rw [if_pos (show "u1" ∈ ["u1", "u2"] by decide)]
  rw [show (["u1", "u2"] : List String).indexOf "u1" = 0 by decide]
  rw [show (["u1", "u2"] : List String).length = 2 from rfl]
  rw [show List.range 2 = [0, 1] by decide]
  simp only [List.map_cons, List.map_nil]
  rw [exB_usim00, exB_usim01, hargs]
  norm_num [exB_urecs2, exB_rated, addScore, keysOf, sortDesc, insertDesc]

theorem exB_dcol (j k : ℕ) (hj : j < 3) (hk : k < 3) :
    dotR (itemCol stB j) (itemCol stB k) stB.users.length = 1 := by
  rw [show stB.users.length = 2 from rfl]
  unfold dotR itemCol
  rw [Finset.sum_range_succ, Finset.sum_range_one]
  rw [exB_norm0 j hj, exB_norm0 k hk, exB_norm1 j hj, exB_norm1 k hk]
  linear_combination (2 : ℝ) * eB_sq

theorem exB_dcol3 (j : ℕ) (hj : j < 3) :
    dotR (itemCol stB j) (itemCol stB 3) stB.users.length = -1 := by
  rw [show stB.users.length = 2 from rfl]
  unfold dotR itemCol
  rw [Finset.sum_range_succ, Finset.sum_range_one]
  rw [exB_norm0 j hj, exB_norm1 j hj, exB_norm03, exB_norm13]
  linear_combination (-2 : ℝ) * eB_sq

theorem exB_dcol33 : dotR (itemCol stB 3) (itemCol stB 3) stB.users.length = 1 := by
  rw [show stB.users.length = 2 from rfl]
  unfold dotR itemCol
  rw [Finset.sum_range_succ, Finset.sum_range_one]
  rw [exB_norm03, exB_norm13]
  linear_combination (2 : ℝ) * eB_sq

theorem exB_isimA (j k : ℕ) (hj : j < 3) (hk : k < 3) : itemSim stB j k = 1 := by
  unfold itemSim cosSim
  rw [exB_dcol j k hj hk, exB_dcol j j hj hj, exB_dcol k k hk hk, Real.sqrt_one]
  norm_num

theorem exB_isimB (j : ℕ) (hj : j < 3) : itemSim stB j 3 = -1 := by
  unfold itemSim cosSim
  rw [exB_dcol3 j hj, exB_dcol j j hj hj, exB_dcol33, Real.sqrt_one]
  norm_num

theorem exB_item : get_item_based_recommendations exB stB "u1" 5 = [(4, -15)] := by
  have hargs : argsort [(1:ℝ), 1, 1, -1] = [3, 0, 1, 2] := by
    norm_num [argsort, argsortAux, insertIdx']
  simp only [get_item_based_recommendations, exB_urecs1, stB_movies]
  simp only [List.foldl_cons, List.foldl_nil]
  rw [show (([1, 2, 3, 4] : List ℕ).indexOf 1) = 0 by decide]
  rw [show (([1, 2, 3, 4] : List ℕ).indexOf 2) = 1 by decide]
  rw [show (([1, 2, 3, 4] : List ℕ).indexOf 3) = 2 by decide]
  rw [show (([1, 2, 3, 4] : List ℕ).length) = 4 from rfl]
  rw [show List.range 4 = [0, 1, 2, 3] by decide]
  simp only [List.map_cons, List.map_nil]
  rw [exB_isimA 0 0 (by omega) (by omega), exB_isimA 0 1 (by omega) (by omega),
    exB_isimA 0 2 (by omega) (by omega), exB_isimB 0 (by omega),
    exB_isimA 1 0 (by omega) (by omega), exB_isimA 1 1 (by omega) (by omega),
    exB_isimA 1 2 (by omega) (by omega), exB_isimB 1 (by omega),
    exB_isimA 2 0 (by omega) (by omega), exB_isimA 2 1 (by omega) (by omega),
    exB_isimA 2 2 (by omega) (by omega), exB_isimB 2 (by omega)]
  rw [hargs]
  norm_num [addScore, keysOf, sortDesc, insertDesc]

theorem exB_content_unfit :
    get_content_based_recommendations nlpInit (userRecords exB "u1") 5 = [] := by
  simp only [get_content_based_recommendations, exB_urecs1]
  rw [show ([⟨"u1", 1, 5⟩, ⟨"u1", 2, 5⟩, ⟨"u1", 3, 5⟩] : List RatingRecord).filter
      (fun r => decide (4 ≤ r.rating)) =
      [⟨"u1", 1, 5⟩, ⟨"u1", 2, 5⟩, ⟨"u1", 3, 5⟩] by decide]
  simp [get_similar_movies, nlpInit, sortDesc]

theorem exB_combined :
    combined_scores exB stB nlpInit "u1" 5 = [(4, -(13/2))] := by
  unfold combined_scores
  rw [exB_user, exB_item, exB_content_unfit]
  norm_num [combineRecs, setScore, addScore, keysOf]

theorem exB_run :
    get_recommendations (mkRecommender exB) "u1" 5 [] = ([4], Status.success) := by
  simp only [get_recommendations, mkRecommender, exB_prep]
  rw [if_pos (show "u1" ∈ stB.users by decide)]
  rw [if_neg (show ¬ (userRecords exB "u1").length < 3 by decide)]
  simp only [ite_true]
  simp only [computeRecs]
  rw [exB_combined]
  norm_num [sortDesc, insertDesc]

/-! ### Witnesses and counterexamples -/

/-- C1 counterexample: on the snapshot `exA` (user `u1` rated movies 1, 2
and 9), with metadata giving the three movies identical overviews,
`get_recommendations` returns movies 2 and 1 — both already rated by the
requesting user — because the content-based strategy never filters rated
movies. -/
theorem content_includes_rated_counterexample :
    get_recommendations (mkRecommender exA) "u1" 5 mdA = ([2, 1], Status.success) ∧
      2 ∈ ratedMovies exA "u1" ∧ 1 ∈ ratedMovies exA "u1" :=
  ⟨exA_run, by decide, by decide⟩

/-- Witness for the amended C1 at the snapshot `exA` and movie 1. -/
theorem recommendations_exclude_rated_collaborative_only_witness :
    1 ∉ keysOf (get_user_based_recommendations exA stA "u1" 5) ∧
      1 ∉ keysOf (get_item_based_recommendations exA stA "u1" 5) :=
  recommendations_exclude_rated_collaborative_only exA stA "u1" 5 1 (by decide)

/-- C2 counterexample: `exDup` holds two records for the pair
`("u1", 1)`; matrix construction does not succeed with the last record
winning — it fails, and the engine reports the uninitialized status. -/
theorem duplicate_records_last_wins_counterexample :
    ¬ (pairKeys exDup).Nodup ∧ prepare_data exDup = none ∧
      get_recommendations (mkRecommender exDup) "u1" 5 [] =
        ([], Status.uninitialized) := by
  have hp : prepare_data exDup = none := by decide
  exact ⟨by decide, hp, by simp [get_recommendations, mkRecommender, hp]⟩

/-- Witness for the amended C2 at the snapshot `exDup`. -/
theorem duplicate_records_fail_construction_witness :
    prepare_data exDup = none ∧
      get_recommendations (mkRecommender exDup) "u2" 3 [] =
        ([], Status.uninitialized) :=
  duplicate_records_fail_construction exDup "u2" 3 [] (by decide)

/-- C3 counterexample: the single-user snapshot `exA` initializes the
engine (the 1×1 user-similarity matrix is computed) and the request flows
through the normal path to `noRecommendations` — it does not report the
uninitialized state. -/
theorem single_user_initializes_counterexample :
    prepare_data exA = some stA ∧ stA.users.length = 1 ∧
      get_recommendations (mkRecommender exA) "u1" 5 [] =
        ([], Status.noRecommendations) :=
  ⟨exA_prep, by decide, exA_run_nomd⟩

/-- Witness for the amended C3 at the empty snapshot and at `exA`. -/
theorem initialization_fails_only_on_empty_witness :
    prepare_data ([] : List RatingRecord) = none ∧
      ∃ st, prepare_data exA = some st :=
  ⟨((initialization_fails_only_on_empty [] "u1" 5 []).1 rfl).1,
   (initialization_fails_only_on_empty exA "u1" 5 []).2 (by decide) (by decide)⟩

/-- Witness for C4 at the snapshot `exA`, movie 2 (scored only by the
content-based strategy). -/
theorem combined_score_weighted_sum_witness :
    scoreOf (combined_scores exA stA nlpA "u1" 5) 2 =
      some (0.4 * (scoreOf (get_user_based_recommendations exA stA "u1" 5) 2).getD 0 +
        0.3 * (scoreOf (get_item_based_recommendations exA stA "u1" 5) 2).getD 0 +
        0.3 * (scoreOf (get_content_based_recommendations nlpA
          (userRecords exA "u1") 5) 2).getD 0) :=
  combined_score_weighted_sum exA stA nlpA "u1" 5 2
    (Or.inr (Or.inr (by rw [exA_content]; simp [keysOf])))

/-- C5 counterexample: on `exA` with metadata `mdA` the two recommended
movies have equal combined scores, yet the list comes back as `[2, 1]` —
insertion order, not the claimed ascending movie-id order `[1, 2]`. -/
theorem tie_break_not_ascending_counterexample :
    get_recommendations (mkRecommender exA) "u1" 5 mdA = ([2, 1], Status.success) ∧
      scoreOf (combined_scores exA stA nlpA "u1" 5) 1 =
        scoreOf (combined_scores exA stA nlpA "u1" 5) 2 ∧
      ([2, 1] : List ℕ) ≠ [1, 2] := by
  refine ⟨exA_run, ?_, by decide⟩
  rw [exA_combined]
  norm_num [scoreOf]

/-- Witness for C6 at the single-user snapshot `exA`, entry (0, 0). -/
theorem normalized_matrix_zscore_witness :
    normEntry stA 0 0 =
      ((rawEntry stA 0 0 - colMean stA 0 : ℚ) : ℝ) / colStd stA 0 ∧
      normEntry stA 0 0 = 0 := by
  have h := normalized_matrix_zscore stA 0 0 (by decide)
  exact ⟨h.1, h.2.2.2 (by decide)⟩

/-- Witness for C8 at the snapshot `exW`: an unknown user and a user with
one rating. -/
theorem eligibility_status_checks_witness :
    get_recommendations (mkRecommender exW) "zz" 5 [] = ([], Status.userNotFound) ∧
      get_recommendations (mkRecommender exW) "u2" 5 [] =
        ([], Status.insufficientRatings 3) := by
  have hp : prepare_data exW = some stW := by decide
  exact ⟨(eligibility_status_checks exW stW "zz" 5 [] hp).1 (by decide),
    (eligibility_status_checks exW stW "u2" 5 [] hp).2.1 (by decide) (by decide)⟩

/-- C9 counterexample: on the snapshot `exB` the single blended score is
−13/2 < 0 (user `u2` is maximally dissimilar to `u1`, cosine −1), and
`get_recommendations` still returns that movie with success. -/
theorem negative_blended_score_counterexample :
    combined_scores exB stB nlpInit "u1" 5 = [(4, -(13/2))] ∧
      get_recommendations (mkRecommender exB) "u1" 5 [] = ([4], Status.success) ∧
      (-(13/2) : ℝ) < 0 :=
  ⟨exB_combined, exB_run, by norm_num⟩

/-- Witness for the amended C9 at the snapshot `exA`, movie 2. -/
theorem blended_score_nonneg_of_strategy_scores_witness : (0:ℝ) ≤ 3/2 :=
  blended_score_nonneg_of_strategy_scores exA stA nlpA "u1" 5 2 (3/2)
    (by rw [exA_user]; simp)
    (by rw [exA_item]; simp)
    (by rw [exA_content]; intro p hp; fin_cases hp <;> norm_num)
    (by rw [exA_combined]; norm_num [scoreOf])

/-- Witness for C10 at the duplicate-pair snapshot `exDup`, the one input
class whose construction genuinely fails. -/
theorem get_recommendations_never_raises_witness :
    get_recommendations (mkRecommender exDup) "u1" 5 [] =
      ([], Status.uninitialized) :=
  (get_recommendations_never_raises exDup "u1" 5 []).2.2 (by decide)

end MRS
